import Mathlib

/-!
# Verification of the cgroup `fs` resource-control core

Shallow embedding of the `fs` package of `github.com/docker/libcontainer/cgroups`
(files `access.go`, `cpuset.go`) and of the daemon's `ContainerLimit` wrapper.

The kernel's control-group pseudo-filesystem is modelled as an explicit state:
a set of directories, an association list of files `(dir, name, content)`, and
a chronological event log recording the successful directory creations, file
reads, file writes and path resolutions performed by the code.  File paths are
lists of components (`filepath.Dir` is `List.dropLast`).  Creating a directory
in the cgroup filesystem makes the kernel materialise its control files with
empty contents; `mkdirOne` models this by adding empty `cpuset.cpus` /
`cpuset.mems` files to a freshly created directory.

Go functions returning `error` become functions `FS → Except GError α × FS`:
the returned state reflects all side effects performed before a failure (the
real filesystem is not rolled back when a Go function returns an error).

The two recursive walks (`CpusetGroup.ensureParent`, `os.MkdirAll`) recurse on
`filepath.Dir`, which strictly shortens the path; they are written with an
explicit fuel argument initialised to the path length, which is enough fuel to
reach an existing ancestor.  Exhausted fuel (Go: an unbounded upward walk past
the filesystem root) is modelled as an error.
-/

/-- A filesystem path, as its list of components (root-to-leaf). -/
abbrev FPath := List String

/-- An observable filesystem event: a successful directory creation, file
read, file write, or a cgroup path resolution. -/
inductive Ev where
  | mkdir : FPath → Ev
  | readF : FPath → String → Ev
  | writeF : FPath → String → String → Ev
  | resolve : String → Ev
deriving DecidableEq

/-- Errors of the embedded code.  `notFound` models `os.IsNotExist`-class
errors (missing paths), matching `cgroups.IsNotFound`; `canNotAccess` is
`ErrCanNotAccess`; `hierarchyNotFound` is the "cgroups fs not found" failure;
`ioError` covers the remaining error values. -/
inductive GError where
  | notFound : String → GError
  | canNotAccess : GError
  | hierarchyNotFound : GError
  | ioError : String → GError
deriving DecidableEq

deriving instance DecidableEq for Except

/-- `cgroups.IsNotFound` (defined outside `src/`): recognises the
path-not-found class of errors. -/
def IsNotFound : GError → Bool
  | GError.notFound _ => true
  | _ => false

/-- The modelled kernel filesystem state plus the event log of the run. -/
structure FS where
  dirs : List FPath
  files : List (FPath × String × String)
  log : List Ev
deriving DecidableEq

/-- Look up the content of file `n` in directory `p` (first match wins;
writes cons their entry at the front, so the first match is the newest). -/
def lookupFile : List (FPath × String × String) → FPath → String → Option String
  | [], _, _ => none
  | (q, m, c) :: rest, p, n =>
    if q = p ∧ m = n then some c else lookupFile rest p n

/-- `ioutil.ReadFile(filepath.Join(p, n))`: fails with a not-found error when
the file is absent; logs the read when it succeeds. -/
def readFileM (fs : FS) (p : FPath) (n : String) : Except GError String × FS :=
  match lookupFile fs.files p n with
  | some c => (Except.ok c, { fs with log := fs.log ++ [Ev.readF p n] })
  | none => (Except.error (GError.notFound "read"), fs)

/-- `writeFile(dir, name, content)` (util of the `fs` package, defined outside
`src/`): writes `content` to `dir/name`, creating or truncating the file;
fails with a not-found error when the directory is absent. -/
def writeFileM (fs : FS) (p : FPath) (n content : String) : Except GError Unit × FS :=
  if p ∈ fs.dirs then
    (Except.ok (),
      { fs with
        files := (p, n, content) :: fs.files
        log := fs.log ++ [Ev.writeF p n content] })
  else (Except.error (GError.notFound "write"), fs)

/-- Create one directory.  The cgroup filesystem materialises the control
files of a new directory with empty contents; only the two cpuset mask files
are modelled, since they are the only auto-created files the code reads. -/
def mkdirOne (fs : FS) (q : FPath) : FS :=
  { dirs := fs.dirs ++ [q]
    files := (q, "cpuset.cpus", "") :: (q, "cpuset.mems", "") :: fs.files
    log := fs.log ++ [Ev.mkdir q] }

/-- `os.MkdirAll`, fuelled by the path length: creates the directory and all
missing ancestors (root-to-leaf), succeeding when the directory exists. -/
def mkdirAllF : Nat → FS → FPath → FS
  | _, fs, [] => if [] ∈ fs.dirs then fs else mkdirOne fs []
  | Nat.zero, fs, _ :: _ => fs
  | Nat.succ n, fs, p₀ :: p₁ =>
    if p₀ :: p₁ ∈ fs.dirs then fs
    else mkdirOne (mkdirAllF n fs (p₀ :: p₁).dropLast) (p₀ :: p₁)

/-- `os.MkdirAll(p, 0755)` (it never reports "already exists" as a failure,
matching the `!os.IsExist(err)` guard at the call site). -/
def mkdirAll (fs : FS) (p : FPath) : FS :=
  mkdirAllF p.length fs p

namespace CpusetGroup

/-- `bytes.Trim(b, "\n")`: strip newline bytes from both ends. -/
def trimNL (s : String) : String :=
  String.mk (((s.data.dropWhile (fun c => c == '\n')).reverse.dropWhile
    (fun c => c == '\n')).reverse)

/-- `CpusetGroup.isEmpty`: a mask is empty when its content trimmed of
newlines has zero length. -/
def isEmpty (b : String) : Bool :=
  (trimNL b).length == 0

/-- `CpusetGroup.getSubsystemSettings(parent)`: read `cpuset.cpus` then
`cpuset.mems` from `parent`, propagating the first failure. -/
def getSubsystemSettings (fs : FS) (parent : FPath) :
    Except GError (String × String) × FS :=
  match readFileM fs parent "cpuset.cpus" with
  | (Except.error e, fs₁) => (Except.error e, fs₁)
  | (Except.ok cpus, fs₁) =>
    match readFileM fs₁ parent "cpuset.mems" with
    | (Except.error e, fs₂) => (Except.error e, fs₂)
    | (Except.ok mems, fs₂) => (Except.ok (cpus, mems), fs₂)

/-- `CpusetGroup.copyIfNeeded(current, parent)`: read the current directory's
masks, then the parent's; copy the parent's value over each mask of `current`
whose content is empty. -/
def copyIfNeeded (fs : FS) (current parent : FPath) : Except GError Unit × FS :=
  match getSubsystemSettings fs current with
  | (Except.error e, fs₁) => (Except.error e, fs₁)
  | (Except.ok (currentCpus, currentMems), fs₁) =>
    match getSubsystemSettings fs₁ parent with
    | (Except.error e, fs₂) => (Except.error e, fs₂)
    | (Except.ok (parentCpus, parentMems), fs₂) =>
      match (if isEmpty currentCpus
             then writeFileM fs₂ current "cpuset.cpus" parentCpus
             else (Except.ok (), fs₂)) with
      | (Except.error e, fs₃) => (Except.error e, fs₃)
      | (Except.ok _, fs₃) =>
        if isEmpty currentMems
        then writeFileM fs₃ current "cpuset.mems" parentMems
        else (Except.ok (), fs₃)

/-- Shared tail of both branches of `ensureParent`: `os.MkdirAll(current)`
followed by `copyIfNeeded(current, parent)`. -/
def ensureStep (fs : FS) (current : FPath) : Except GError Unit × FS :=
  copyIfNeeded (mkdirAll fs current) current current.dropLast

/-- `CpusetGroup.ensureParent(current)`, fuelled: if the parent is missing,
first ensure it recursively (so construction proceeds root-to-leaf), then
create `current` idempotently and inherit masks from the parent. -/
def ensureParentF : Nat → FS → FPath → Except GError Unit × FS
  | Nat.zero, fs, _ => (Except.error (GError.ioError "recursion limit"), fs)
  | Nat.succ n, fs, current =>
    if current.dropLast ∈ fs.dirs then ensureStep fs current
    else
      match ensureParentF n fs current.dropLast with
      | (Except.error e, fs₁) => (Except.error e, fs₁)
      | (Except.ok _, fs₁) => ensureStep fs₁ current

/-- `CpusetGroup.ensureParent(current)`.  The fuel `current.length + 1`
covers the deepest possible upward walk. -/
def ensureParent (fs : FS) (current : FPath) : Except GError Unit × FS :=
  ensureParentF (current.length + 1) fs current

/-- `CpusetGroup.SetDir(dir, value, pid)`: ensure the ancestor chain, then
place the pid into `cgroup.procs`, then write the requested mask. -/
def SetDir (fs : FS) (dir : FPath) (value : String) (pid : Int) :
    Except GError Unit × FS :=
  match ensureParent fs dir with
  | (Except.error e, fs₁) => (Except.error e, fs₁)
  | (Except.ok _, fs₁) =>
    match writeFileM fs₁ dir "cgroup.procs" (toString pid) with
    | (Except.error e, fs₂) => (Except.error e, fs₂)
    | (Except.ok _, fs₂) => writeFileM fs₂ dir "cpuset.cpus" value

end CpusetGroup

/-- The subset of `configs.Cgroup` the shown code uses. -/
structure Cgroup where
  Name : String
  Parent : String
  Memory : Int
  CpuShares : Int
  CpusetCpus : String
deriving DecidableEq

/-- The per-call `data` built by `getCgroupData` (defined outside `src/`):
the spec, the target pid and the path-resolution context.  `d.path(name)` is
modelled by the pure resolver `pathsOf` (its filesystem walk is outside
`src/`); `resolveM` below records each resolution in the event log. -/
structure data where
  c : Cgroup
  pid : Int
  pathsOf : String → Except GError FPath

/-- `d.path(subsystem)`: resolve a controller directory, logging the
resolution. -/
def resolveM (d : data) (fs : FS) (n : String) : Except GError FPath × FS :=
  (d.pathsOf n, { fs with log := fs.log ++ [Ev.resolve n] })

/-- `CpusetGroup.Set(d)`: opt-in — only acts when `CpusetCpus` is set. -/
def CpusetGroup.Set (d : data) (fs : FS) : Except GError Unit × FS :=
  if d.c.CpusetCpus ≠ "" then
    match resolveM d fs "cpuset" with
    | (Except.error e, fs₁) => (Except.error e, fs₁)
    | (Except.ok dir, fs₁) => CpusetGroup.SetDir fs₁ dir d.c.CpusetCpus d.pid
  else (Except.ok (), fs)

/-- `CpusetGroup.GetStats`: returns nil and records nothing. -/
def CpusetGroup.GetStats (_p : FPath) (stats : List (String × String)) (fs : FS) :
    Except GError (List (String × String)) × FS :=
  (Except.ok stats, fs)

/-- The aggregated statistics record (`cgroups.Stats`), as an association
list from counter name to raw value. -/
abbrev Stats := List (String × String)

/-- The `subsystem` interface of the `fs` package (declared outside `src/`):
an apply step and a stats-reading step. -/
structure subsystem where
  apply : data → FS → Except GError Unit × FS
  getStats : FPath → Stats → FS → Except GError Stats × FS

/-- Modelled from the spec: `MemoryGroup.Apply` (defined outside `src/`)
resolves the memory controller directory, creates it if absent, writes
`memoryBytes` (if nonzero) to `memory.limit_in_bytes` and joins the pid;
with `Memory = 0` it leaves the filesystem untouched. -/
def memoryApply (d : data) (fs : FS) : Except GError Unit × FS :=
  if d.c.Memory ≠ 0 then
    match resolveM d fs "memory" with
    | (Except.error e, fs₁) => (Except.error e, fs₁)
    | (Except.ok dir, fs₁) =>
      let fs₂ := mkdirAll fs₁ dir
      match writeFileM fs₂ dir "memory.limit_in_bytes" (toString d.c.Memory) with
      | (Except.error e, fs₃) => (Except.error e, fs₃)
      | (Except.ok _, fs₃) => writeFileM fs₃ dir "cgroup.procs" (toString d.pid)
  else (Except.ok (), fs)

/-- Modelled from the spec: `MemoryGroup.GetStats` (defined outside `src/`)
parses the memory controller's accounting files into the shared record. -/
def memoryGetStats (p : FPath) (stats : Stats) (fs : FS) :
    Except GError Stats × FS :=
  match readFileM fs p "memory.usage_in_bytes" with
  | (Except.error e, fs₁) => (Except.error e, fs₁)
  | (Except.ok v, fs₁) => (Except.ok (("memory.usage_in_bytes", v) :: stats), fs₁)

/-- Modelled from the spec: `CpuGroup.Apply` (defined outside `src/`) writes
`cpuShares` (if nonzero) to `cpu.shares` and joins the pid; with
`CpuShares = 0` it leaves the filesystem untouched. -/
def cpuApply (d : data) (fs : FS) : Except GError Unit × FS :=
  if d.c.CpuShares ≠ 0 then
    match resolveM d fs "cpu" with
    | (Except.error e, fs₁) => (Except.error e, fs₁)
    | (Except.ok dir, fs₁) =>
      let fs₂ := mkdirAll fs₁ dir
      match writeFileM fs₂ dir "cpu.shares" (toString d.c.CpuShares) with
      | (Except.error e, fs₃) => (Except.error e, fs₃)
      | (Except.ok _, fs₃) => writeFileM fs₃ dir "cgroup.procs" (toString d.pid)
  else (Except.ok (), fs)

/-- Modelled from the spec: `CpuGroup.GetStats` (defined outside `src/`)
parses the CPU controller's throughput counters into the shared record. -/
def cpuGetStats (p : FPath) (stats : Stats) (fs : FS) :
    Except GError Stats × FS :=
  match readFileM fs p "cpu.stat" with
  | (Except.error e, fs₁) => (Except.error e, fs₁)
  | (Except.ok v, fs₁) => (Except.ok (("cpu.stat", v) :: stats), fs₁)

def memorySubsystem : subsystem :=
  { apply := memoryApply, getStats := memoryGetStats }

def cpuSubsystem : subsystem :=
  { apply := cpuApply, getStats := cpuGetStats }

def cpusetSubsystem : subsystem :=
  { apply := CpusetGroup.Set, getStats := CpusetGroup.GetStats }

/-- The `supportedSubsystems` registry, in the textual order of `access.go`.
It is a Go `map`; the language specifies no iteration order for `range` over
a map, so every function iterating it takes the iteration order of that call
as an explicit parameter, constrained to a permutation of this list. -/
def supportedSubsystems : List (String × subsystem) :=
  [("memory", memorySubsystem), ("cpu", cpuSubsystem), ("cpuset", cpusetSubsystem)]

/-- The loop of `SetResources`: invoke each controller's `Apply` in the given
order, stopping at the first error.  Also returns the names of the
controllers whose `Apply` was invoked, in invocation order. -/
def runApplies : List (String × subsystem) → data → FS →
    List String × (FS × Option GError)
  | [], _, fs => ([], (fs, none))
  | (n, s) :: rest, d, fs =>
    match s.apply d fs with
    | (Except.error e, fs₁) => ([n], (fs₁, some e))
    | (Except.ok _, fs₁) =>
      let r := runApplies rest d fs₁
      (n :: r.1, r.2)

/-- `SetResources(c, pid)` after `getCgroupData` (defined outside `src/`) has
built `d`: run every registered controller's `Apply` in the iteration order
`order` of this call. -/
def SetResources (order : List (String × subsystem)) (d : data) (fs : FS) :
    List String × (FS × Option GError) :=
  runApplies order d fs

/-- A loop-level step of `GetAllStats`, for stating its temporal claims:
the controller's `Apply` ran, its directory was resolved, its stats were
read. -/
inductive StatStep where
  | applied : String → StatStep
  | resolved : String → StatStep
  | gotStats : String → StatStep
deriving DecidableEq

/-- The loop of `GetAllStats`: for each registered controller, `Apply`, then
re-resolve its directory — treating a not-found resolution as a skip — then
read its stats into the shared record. -/
def runStats : List (String × subsystem) → data → Stats → FS →
    List StatStep × (Stats × FS × Option GError)
  | [], _, stats, fs => ([], (stats, fs, none))
  | (n, s) :: rest, d, stats, fs =>
    match s.apply d fs with
    | (Except.error e, fs₁) => ([StatStep.applied n], (stats, fs₁, some e))
    | (Except.ok _, fs₁) =>
      match resolveM d fs₁ n with
      | (Except.error e, fs₂) =>
        if IsNotFound e then
          let r := runStats rest d stats fs₂
          (StatStep.applied n :: r.1, r.2)
        else ([StatStep.applied n], (stats, fs₂, some e))
      | (Except.ok p, fs₂) =>
        match s.getStats p stats fs₂ with
        | (Except.error e, fs₃) =>
          ([StatStep.applied n, StatStep.resolved n], (stats, fs₃, some e))
        | (Except.ok stats₁, fs₃) =>
          let r := runStats rest d stats₁ fs₃
          (StatStep.applied n :: StatStep.resolved n :: StatStep.gotStats n :: r.1, r.2)

/-- Modelled from the spec: the `subsystems` map iterated by `GetAllStats`
(defined outside `src/`) is the full controller registry. -/
def subsystems : List (String × subsystem) :=
  supportedSubsystems

/-- `GetAllStats(c, pid)` after `getCgroupData` has built `d`: start from
`cgroups.NewStats()` (the empty record) and run the stats loop in the
iteration order `order` of this call. -/
def GetAllStats (order : List (String × subsystem)) (d : data) (fs : FS) :
    List StatStep × (Stats × FS × Option GError) :=
  runStats order d [] fs

namespace Access

/-- `AccessaibleSubsystems`: the fixed allow-list of directly accessible
controller files, in the textual order of `access.go` (a Go map; the lookup's
result does not depend on iteration order because no file name occurs in two
groups, and this model fixes the textual order). -/
def AccessaibleSubsystems : List (String × List String) :=
  [("cpu", ["cpu.shares", "cpu.cfs_period_us", "cpu.cfs_quota_us"]),
   ("cpuset", ["cpuset.cpus"]),
   ("memory", ["memory.limit_in_bytes", "memory.soft_limit_in_bytes",
               "memory.memsw.limit_in_bytes"]),
   ("freezer", ["freezer.state"])]

/-- A file name is accessible when some allow-list group contains it. -/
def accessible (sub : String) : Prop :=
  ∃ g ∈ AccessaibleSubsystems, sub ∈ g.2

instance (sub : String) : Decidable (accessible sub) := by
  unfold accessible; infer_instance

/-- Inner search of `findGroup` over the allow-list. -/
def findGroupAux : List (String × List String) → String → Except GError String
  | [], _ => Except.error GError.canNotAccess
  | g :: rest, sub => if sub ∈ g.2 then Except.ok g.1 else findGroupAux rest sub

/-- `findGroup(subsystem)`: the group owning the file name, or
`ErrCanNotAccess`. -/
def findGroup (sub : String) : Except GError String :=
  findGroupAux AccessaibleSubsystems sub

/-- The collaborators of `getPath` that live in the `cgroups` package,
outside `src/`.  Modelled from the spec: `FindCgroupMountpoint` locates the
mount point of a reference controller, `GetInitCgroupDir` yields the
hierarchy's init subpath. -/
structure CgroupsEnv where
  findCgroupMountpoint : String → Except GError FPath
  getInitCgroupDir : String → Except GError FPath

/-- `os.Stat` on a full path: the path exists as a directory, or its last
component is a file of its parent directory. -/
def statNode (fs : FS) (p : FPath) : Bool :=
  decide (p ∈ fs.dirs) || (lookupFile fs.files p.dropLast (p.getLastD "")).isSome

/-- `getPath(id, driver, subsystem)`: derive the hierarchy root from the cpu
controller's mount point, check it exists, validate the file name against the
allow-list, and join root/group/init/driver/id/subsystem, which must exist. -/
def getPath (env : CgroupsEnv) (id driver sub : String) (fs : FS) :
    Except GError FPath :=
  match env.findCgroupMountpoint "cpu" with
  | Except.error e => Except.error e
  | Except.ok mp =>
    let cgroupRoot := mp.dropLast
    if cgroupRoot ∈ fs.dirs then
      match findGroup sub with
      | Except.error e => Except.error e
      | Except.ok group =>
        match env.getInitCgroupDir group with
        | Except.error e => Except.error e
        | Except.ok initPath =>
          let p := cgroupRoot ++ [group] ++ initPath ++ [driver, id, sub]
          if statNode fs p then Except.ok p
          else Except.error (GError.notFound "path")
    else Except.error GError.hierarchyNotFound

/-- `fs.Set(id, driver, subsystem, value)`: resolve through `getPath` and
write the value to the resolved file. -/
def Set (env : CgroupsEnv) (id driver sub value : String) (fs : FS) :
    Except GError Unit × FS :=
  match getPath env id driver sub fs with
  | Except.error e => (Except.error e, fs)
  | Except.ok p => writeFileM fs p.dropLast (p.getLastD "") value

/-- `strings.TrimSuffix(s, "\n")`: drop one trailing newline. -/
def trimSuffixNL (s : String) : String :=
  if s.endsWith "\n" then s.dropRight 1 else s

/-- `fs.Get(id, driver, subsystem)`: resolve through `getPath`, read the
resolved file and strip a trailing newline. -/
def Get (env : CgroupsEnv) (id driver sub : String) (fs : FS) :
    Except GError String × FS :=
  match getPath env id driver sub fs with
  | Except.error e => (Except.error e, fs)
  | Except.ok p =>
    match readFileM fs p.dropLast (p.getLastD "") with
    | (Except.error e, fs₁) => (Except.error e, fs₁)
    | (Except.ok v, fs₁) => (Except.ok (trimSuffixNL v), fs₁)

end Access

/-- The persisted fields of a container's stored configuration
(`container.Config`), as used by `ContainerLimit`. -/
structure ContainerConfig where
  Memory : Int
  CpuShares : Int
  Cpuset : String
deriving DecidableEq

/-- The `saveChanges` block of `Daemon.ContainerLimit`: write back exactly
the fields that were non-zero/non-empty in the applied spec. -/
def persistConfig (c : Cgroup) (cfg : ContainerConfig) : ContainerConfig :=
  let cfg₁ := if c.Memory ≠ 0 then { cfg with Memory := c.Memory } else cfg
  let cfg₂ := if c.CpuShares ≠ 0 then { cfg₁ with CpuShares := c.CpuShares } else cfg₁
  if c.CpusetCpus ≠ "" then { cfg₂ with Cpuset := c.CpusetCpus } else cfg₂

/-- The core of `Daemon.ContainerLimit` after the wrapper has validated the
request and built `d`: apply the resources; on failure report the error and
leave the stored configuration alone; on success persist the non-unset fields
when `saveChanges` is set. -/
def containerLimit (order : List (String × subsystem)) (d : data) (fs : FS)
    (saveChanges : Bool) (cfg : ContainerConfig) :
    Except GError Unit × FS × ContainerConfig :=
  match SetResources order d fs with
  | (_, (fs₁, some e)) => (Except.error e, fs₁, cfg)
  | (_, (fs₁, none)) =>
    (Except.ok (), fs₁, if saveChanges then persistConfig d.c cfg else cfg)

/-! ## Concrete fixtures used by the closed witness theorems -/

/-- A spec with every field unset, and a resolver that would fail if it were
consulted. -/
def dUnset : data :=
  { c := { Name := "c1", Parent := "docker", Memory := 0, CpuShares := 0,
           CpusetCpus := "" }
    pid := 42
    pathsOf := fun _ => Except.error (GError.notFound "unused") }

/-- A spec requesting a cpuset mask whose resolution fails. -/
def dCpusetFail : data :=
  { c := { Name := "c2", Parent := "docker", Memory := 0, CpuShares := 0,
           CpusetCpus := "0-1" }
    pid := 7
    pathsOf := fun _ => Except.error (GError.ioError "boom") }

/-- An empty filesystem with just the root directory. -/
def fs0 : FS := { dirs := [[]], files := [], log := [] }

/-- The statement of claim C2 as written: the iteration order of the
registry — hence the sequence of invoked controllers — is the same for any
two calls over the same registered set. -/
def C2Claim : Prop :=
  ∀ ord₁ ord₂ : List (String × subsystem),
    ord₁.Perm supportedSubsystems → ord₂.Perm supportedSubsystems →
    ∀ d fs, (SetResources ord₁ d fs).1 = (SetResources ord₂ d fs).1

/-- A parent directory with masks `"0-3"` / `"0"`, and a freshly created
empty child. -/
def fsCopy : FS :=
  { dirs := [[], ["sys"], ["sys", "parent"], ["sys", "parent", "child"]]
    files := [(["sys", "parent", "child"], "cpuset.cpus", ""),
              (["sys", "parent", "child"], "cpuset.mems", "\n"),
              (["sys", "parent"], "cpuset.cpus", "0-3"),
              (["sys", "parent"], "cpuset.mems", "0")]
    log := [] }

/-- Events the ancestor bootstrap is allowed to produce: directory
creations, reads, and writes of the two mask files — never a `cgroup.procs`
write and never a path resolution. -/
def bootstrapEv : Ev → Bool
  | Ev.writeF _ n _ => decide (n = "cpuset.cpus") || decide (n = "cpuset.mems")
  | Ev.mkdir _ => true
  | Ev.readF _ _ => true
  | Ev.resolve _ => false

/-- `fs'` extends the log of `fs` with bootstrap events only. -/
def LogExt (fs fs' : FS) : Prop :=
  ∃ Δ, fs'.log = fs.log ++ Δ ∧ Δ.all bootstrapEv = true

/-- A spec whose cpu-controller resolution fails with a not-found error but
whose other controllers resolve. -/
def dStats7 : data :=
  { c := { Name := "c7", Parent := "docker", Memory := 0, CpuShares := 0,
           CpusetCpus := "" }
    pid := 1
    pathsOf := fun m =>
      if m = "cpu" then Except.error (GError.notFound "cpu")
      else Except.ok [m] }

/-- A filesystem carrying the accounting files the stats loop reads. -/
def fsStats : FS :=
  { dirs := [[], ["memory"], ["cpu"], ["cpuset"]]
    files := [(["memory"], "memory.usage_in_bytes", "100"),
              (["cpu"], "cpu.stat", "usage 5")]
    log := [] }

/-- The names of the controllers whose `Apply` step ran, in order. -/
def appliedNames (tr : List StatStep) : List String :=
  tr.filterMap (fun a =>
    match a with
    | StatStep.applied m => some m
    | _ => none)

/-- The loop-step trace a single controller can contribute to
`GetAllStats`: apply only, apply-resolve, or apply-resolve-stats — always in
that order. -/
def statBlock (b : List StatStep) : Prop :=
  ∃ m, b = [StatStep.applied m] ∨
    b = [StatStep.applied m, StatStep.resolved m] ∨
    b = [StatStep.applied m, StatStep.resolved m, StatStep.gotStats m]

/-- A spec whose controllers all resolve. -/
def dStats8 : data :=
  { c := { Name := "c8", Parent := "docker", Memory := 0, CpuShares := 0,
           CpusetCpus := "" }
    pid := 1
    pathsOf := fun m => Except.ok [m] }

/-- An environment whose mount-point and init-dir lookups succeed. -/
def envW : Access.CgroupsEnv :=
  { findCgroupMountpoint := fun _ => Except.ok ["sys", "cpu"]
    getInitCgroupDir := fun _ => Except.ok [] }

/-- A filesystem containing the hierarchy root `["sys"]`. -/
def fsW9 : FS := { dirs := [[], ["sys"]], files := [], log := [] }

/-- Both mask files of `p` exist with non-empty (trimmed) content. -/
def hasMasks (files : List (FPath × String × String)) (p : FPath) : Bool :=
  (match lookupFile files p "cpuset.cpus" with
   | some c => !CpusetGroup.isEmpty c
   | none => false) &&
  (match lookupFile files p "cpuset.mems" with
   | some c => !CpusetGroup.isEmpty c
   | none => false)

/-- The hierarchy invariant rooted at `root`: every ancestor of `root`
exists, the directory set is closed under parents, every directory at or
below `root` has non-empty masks, and every directory is comparable with
`root`. -/
def GoodFS (fs : FS) (root : FPath) : Prop :=
  (∀ p ∈ root.inits, p ∈ fs.dirs) ∧
  (∀ p ∈ fs.dirs, p.dropLast ∈ fs.dirs) ∧
  (∀ p ∈ fs.dirs, root <+: p → hasMasks fs.files p = true) ∧
  (∀ p ∈ fs.dirs, p <+: root ∨ root <+: p)

instance (fs : FS) (root : FPath) : Decidable (GoodFS fs root) := by
  unfold GoodFS
  infer_instance

/-- The directories created (in order) during a run, read off the log. -/
def chainMkdirs (Δ : List Ev) : List FPath :=
  Δ.filterMap (fun e =>
    match e with
    | Ev.mkdir p => some p
    | _ => none)

/-- A hierarchy where only the root `["sys", "cgr"]` exists, with non-empty
root masks. -/
def fsBoot : FS :=
  { dirs := [[], ["sys"], ["sys", "cgr"]]
    files := [(["sys", "cgr"], "cpuset.cpus", "0-3"),
              (["sys", "cgr"], "cpuset.mems", "0")]
    log := [] }

/-! ## Orchestration lemmas -/

/-- Splitting the apply loop at a successful prefix. -/
theorem runApplies_append (pre rest : List (String × subsystem)) (d : data)
    (fs : FS) (ns : List String) (fs₁ : FS)
    (h : runApplies pre d fs = (ns, (fs₁, none))) :
    runApplies (pre ++ rest) d fs =
      (ns ++ (runApplies rest d fs₁).1, (runApplies rest d fs₁).2) := by
  induction pre generalizing fs ns with
  | nil =>
    simp only [runApplies] at h
    cases h
    simp
  | cons hd tl ih =>
    obtain ⟨n, s⟩ := hd
    simp only [List.cons_append, runApplies] at h ⊢
    rcases ha : s.apply d fs with ⟨r, fsa⟩
    rw [ha] at h
    cases r with
    | error e => simp at h
    | ok u =>
      simp only at h
      rcases ht : runApplies tl d fsa with ⟨ns', r'⟩
      rw [ht] at h
      simp only [Prod.mk.injEq] at h
      obtain ⟨h₁, h₂⟩ := h
      subst h₁
      dsimp only
      simp only [List.append_eq]
      rw [ih fsa ns' (ht.trans (by rw [h₂]))]
      simp

/-- Every controller of the registry, applied to a fully unset spec, leaves
the filesystem untouched and succeeds. -/
theorem apply_unset (d : data) (hm : d.c.Memory = 0) (hc : d.c.CpuShares = 0)
    (hs : d.c.CpusetCpus = "") (x : String × subsystem)
    (hx : x ∈ supportedSubsystems) (fs : FS) :
    x.2.apply d fs = (Except.ok (), fs) := by
  simp only [supportedSubsystems, List.mem_cons, List.mem_singleton] at hx
  rcases hx with rfl | rfl | rfl | h
  · simp [memorySubsystem, memoryApply, hm]
  · simp [cpuSubsystem, cpuApply, hc]
  · simp [cpusetSubsystem, CpusetGroup.Set, hs]
  · simp at h

/-- The apply loop over controllers of the registry is the identity on a
fully unset spec: every controller is invoked once, in order, and no error
is produced. -/
theorem runApplies_unset (d : data) (hm : d.c.Memory = 0)
    (hc : d.c.CpuShares = 0) (hs : d.c.CpusetCpus = "")
    (ord : List (String × subsystem))
    (hord : ∀ x ∈ ord, x ∈ supportedSubsystems) (fs : FS) :
    runApplies ord d fs = (ord.map Prod.fst, (fs, none)) := by
  induction ord with
  | nil => rfl
  | cons hd tl ih =>
    obtain ⟨n, s⟩ := hd
    have hhd : s.apply d fs = (Except.ok (), fs) :=
      apply_unset d hm hc hs (n, s) (hord _ (by simp)) fs
    simp [runApplies, hhd, ih (fun x hx => hord x (by simp [hx]))]

/-- C1 — If a registered controller's `Apply` fails after the preceding ones
succeeded, `SetResources` returns that error at once: the invoked controllers
are exactly the predecessors plus the failing one (nothing after it runs),
and the returned state is the failing state itself — the successful
controllers' writes are kept, with no rollback. -/
theorem c1_setResources_fail_fast (ord pre post : List (String × subsystem))
    (n : String) (s : subsystem) (d : data) (fs fs₁ fs₂ : FS)
    (ns : List String) (e : GError)
    (hord : ord = pre ++ (n, s) :: post)
    (hperm : ord.Perm supportedSubsystems)
    (hpre : runApplies pre d fs = (ns, (fs₁, none)))
    (hfail : s.apply d fs₁ = (Except.error e, fs₂)) :
    SetResources ord d fs = (ns ++ [n], (fs₂, some e)) := by
  subst hord
  unfold SetResources
  rw [runApplies_append pre ((n, s) :: post) d fs ns fs₁ hpre]
  simp [runApplies, hfail]

/-- Witness for C1: with memory and cpu unset and a cpuset mask whose
resolution fails, the run invokes memory, cpu, then cpuset, and stops with
cpuset's error. -/
theorem c1_witness :
    SetResources supportedSubsystems dCpusetFail fs0 =
      (["memory", "cpu", "cpuset"],
        ({ fs0 with log := [Ev.resolve "cpuset"] },
          some (GError.ioError "boom"))) := by
  have h := c1_setResources_fail_fast supportedSubsystems
    [("memory", memorySubsystem), ("cpu", cpuSubsystem)] []
    "cpuset" cpusetSubsystem dCpusetFail fs0 fs0
    { fs0 with log := [Ev.resolve "cpuset"] } ["memory", "cpu"]
    (GError.ioError "boom") rfl (List.Perm.refl _) (by decide) (by decide)
  simpa using h

/-- C2, counterexample — the registry is a Go map and `range` over a map has
no specified order: two permitted iteration orders that differ in their first
two controllers already produce different invocation sequences. -/
theorem c2_counterexample : ¬ C2Claim := by
  intro h
  have h₁ :
      (("cpu", cpuSubsystem) :: ("memory", memorySubsystem) ::
        [("cpuset", cpusetSubsystem)]).Perm supportedSubsystems := by
    simp only [supportedSubsystems]
    exact List.Perm.swap ("memory", memorySubsystem) ("cpu", cpuSubsystem) _
  have := h supportedSubsystems
    (("cpu", cpuSubsystem) :: ("memory", memorySubsystem) ::
      [("cpuset", cpusetSubsystem)])
    (List.Perm.refl _) h₁ dUnset fs0
  rw [SetResources, SetResources,
    runApplies_unset dUnset rfl rfl rfl supportedSubsystems
      (fun x hx => hx) fs0,
    runApplies_unset dUnset rfl rfl rfl _
      (fun x hx => h₁.mem_iff.mp hx) fs0] at this
  simp [supportedSubsystems] at this

/-- C2, amended — what the code does guarantee: in any one call the invoked
controllers follow that call's iteration order, and when no `Apply` fails
every registered controller is invoked exactly once (the invocation sequence
is that call's permutation of the registered set); the order is *not*
guaranteed to repeat across calls. -/
theorem c2_apply_order_per_call (ord : List (String × subsystem)) (d : data)
    (fs : FS) (hperm : ord.Perm supportedSubsystems)
    (hok : (SetResources ord d fs).2.2 = none) :
    (SetResources ord d fs).1 = ord.map Prod.fst ∧
      (SetResources ord d fs).1.Perm (supportedSubsystems.map Prod.fst) := by
  have hnames : (SetResources ord d fs).1 = ord.map Prod.fst := by
    clear hperm
    unfold SetResources at hok ⊢
    induction ord generalizing fs with
    | nil => rfl
    | cons hd tl ih =>
      obtain ⟨n, s⟩ := hd
      simp only [runApplies] at hok ⊢
      rcases ha : s.apply d fs with ⟨r, fsa⟩
      rw [ha] at hok
      cases r with
      | error e => simp at hok
      | ok _ =>
        simp only at hok
        simp at hok ⊢
        rw [ih fsa hok]
  exact ⟨hnames, by rw [hnames]; exact hperm.map Prod.fst⟩

/-- Witness for C2's amended theorem: the all-unset spec succeeds and the
invocation sequence is the registry order of the call. -/
theorem c2_amended_witness :
    (SetResources supportedSubsystems dUnset fs0).1 =
      ["memory", "cpu", "cpuset"] := by
  have h := c2_apply_order_per_call supportedSubsystems dUnset fs0
    (List.Perm.refl _) (by decide)
  simpa [supportedSubsystems] using h.1

/-- C3 — With an empty `cpusetCpus`, the cpuset controller's `Set` succeeds
and returns the state unchanged: no path resolution, no file read, no file
write (the event log is untouched).  Moreover a spec with *all* fields unset
makes the whole apply loop, in any iteration order of the registry, a no-op:
no kernel file is modified. -/
theorem c3_cpuset_set_noop (d : data) (fs : FS)
    (hs : d.c.CpusetCpus = "") :
    CpusetGroup.Set d fs = (Except.ok (), fs) ∧
      (d.c.Memory = 0 → d.c.CpuShares = 0 →
        ∀ ord : List (String × subsystem), ord.Perm supportedSubsystems →
          SetResources ord d fs = (ord.map Prod.fst, (fs, none))) := by
  refine ⟨by simp [CpusetGroup.Set, hs], fun hm hc ord hperm => ?_⟩
  exact runApplies_unset d hm hc hs ord (fun x hx => hperm.mem_iff.mp hx) fs

/-- Witness for C3: the all-unset spec leaves the concrete filesystem —
files, directories and event log — exactly as it was. -/
theorem c3_witness :
    CpusetGroup.Set dUnset fs0 = (Except.ok (), fs0) ∧
      SetResources supportedSubsystems dUnset fs0 =
        (["memory", "cpu", "cpuset"], (fs0, none)) := by
  have h := c3_cpuset_set_noop dUnset fs0 rfl
  have h₂ := h.2 rfl rfl supportedSubsystems (List.Perm.refl _)
  refine ⟨h.1, ?_⟩
  rw [h₂]
  simp [supportedSubsystems]

/-- C10 — After a successful apply with persistence requested, only the
fields that were non-zero/non-empty in the applied spec are written back;
any field unset in the spec keeps its stored value. -/
theorem c10_persist_only_set_fields (ord : List (String × subsystem))
    (d : data) (fs : FS) (cfg : ContainerConfig)
    (hok : (SetResources ord d fs).2.2 = none) :
    let cfg' := (containerLimit ord d fs true cfg).2.2
    (d.c.Memory = 0 → cfg'.Memory = cfg.Memory) ∧
      (d.c.Memory ≠ 0 → cfg'.Memory = d.c.Memory) ∧
      (d.c.CpuShares = 0 → cfg'.CpuShares = cfg.CpuShares) ∧
      (d.c.CpuShares ≠ 0 → cfg'.CpuShares = d.c.CpuShares) ∧
      (d.c.CpusetCpus = "" → cfg'.Cpuset = cfg.Cpuset) ∧
      (d.c.CpusetCpus ≠ "" → cfg'.Cpuset = d.c.CpusetCpus) := by
  have hrun : containerLimit ord d fs true cfg =
      (Except.ok (), (SetResources ord d fs).2.1, persistConfig d.c cfg) := by
    unfold containerLimit
    rcases hr : SetResources ord d fs with ⟨ns, fs₁, oe⟩
    rw [hr] at hok
    cases oe with
    | none => rfl
    | some e => simp at hok
  rw [hrun]
  unfold persistConfig
  rcases hM : decide (d.c.Memory ≠ 0) with _ | _ <;>
    rcases hC : decide (d.c.CpuShares ≠ 0) with _ | _ <;>
      rcases hS : decide (d.c.CpusetCpus ≠ "") with _ | _ <;>
        simp_all

/-- Witness for C10: a spec setting only the memory field updates only the
stored memory field. -/
theorem c10_witness :
    ((containerLimit supportedSubsystems dUnset fs0 true
        { Memory := 1, CpuShares := 2, Cpuset := "3" }).2.2).Memory = 1 ∧
      ((containerLimit supportedSubsystems dUnset fs0 true
        { Memory := 1, CpuShares := 2, Cpuset := "3" }).2.2).CpuShares = 2 := by
  have h := c10_persist_only_set_fields supportedSubsystems dUnset fs0
    { Memory := 1, CpuShares := 2, Cpuset := "3" } (by decide)
  exact ⟨h.1 rfl, h.2.2.1 rfl⟩

/-! ## File-lookup lemmas -/

theorem lookupFile_cons_self (l : List (FPath × String × String)) (p : FPath)
    (n c : String) : lookupFile ((p, n, c) :: l) p n = some c := by
  simp [lookupFile]

theorem lookupFile_cons_ne (l : List (FPath × String × String))
    (q : FPath) (m c : String) (p : FPath) (n : String)
    (h : ¬(q = p ∧ m = n)) : lookupFile ((q, m, c) :: l) p n = lookupFile l p n := by
  simp [lookupFile, h]

/-- C5 — `copyIfNeeded` (i) never overwrites a non-empty `cpuset.cpus` of the
current directory, (ii) never overwrites a non-empty `cpuset.mems`, and
(iii) on the path where all four reads succeed and the directory exists, it
reads current-then-parent and copies exactly the masks whose current content
is empty. -/
theorem c5_copyIfNeeded_only_empty (fs : FS) (current parent : FPath) :
    (∀ c, lookupFile fs.files current "cpuset.cpus" = some c →
      CpusetGroup.isEmpty c = false →
      lookupFile ((CpusetGroup.copyIfNeeded fs current parent).2).files
        current "cpuset.cpus" = some c) ∧
    (∀ c, lookupFile fs.files current "cpuset.mems" = some c →
      CpusetGroup.isEmpty c = false →
      lookupFile ((CpusetGroup.copyIfNeeded fs current parent).2).files
        current "cpuset.mems" = some c) ∧
    (∀ cc cm pc pm,
      lookupFile fs.files current "cpuset.cpus" = some cc →
      lookupFile fs.files current "cpuset.mems" = some cm →
      lookupFile fs.files parent "cpuset.cpus" = some pc →
      lookupFile fs.files parent "cpuset.mems" = some pm →
      current ∈ fs.dirs →
      CpusetGroup.copyIfNeeded fs current parent =
        (Except.ok (),
          { dirs := fs.dirs
            files :=
              (if CpusetGroup.isEmpty cm
               then [(current, "cpuset.mems", pm)] else []) ++
              (if CpusetGroup.isEmpty cc
               then [(current, "cpuset.cpus", pc)] else []) ++ fs.files
            log := fs.log ++
              [Ev.readF current "cpuset.cpus", Ev.readF current "cpuset.mems",
               Ev.readF parent "cpuset.cpus", Ev.readF parent "cpuset.mems"] ++
              (if CpusetGroup.isEmpty cc
               then [Ev.writeF current "cpuset.cpus" pc] else []) ++
              (if CpusetGroup.isEmpty cm
               then [Ev.writeF current "cpuset.mems" pm] else []) })) := by
  refine ⟨?_, ?_, ?_⟩
  · intro c hcc hne
    rcases hcm : lookupFile fs.files current "cpuset.mems" with _ | cm
    · simp [CpusetGroup.copyIfNeeded, CpusetGroup.getSubsystemSettings,
        readFileM, hcc, hcm]
    · rcases hpc : lookupFile fs.files parent "cpuset.cpus" with _ | pc
      · simp [CpusetGroup.copyIfNeeded, CpusetGroup.getSubsystemSettings,
          readFileM, hcc, hcm, hpc]
      · rcases hpm : lookupFile fs.files parent "cpuset.mems" with _ | pm
        · simp [CpusetGroup.copyIfNeeded, CpusetGroup.getSubsystemSettings,
            readFileM, hcc, hcm, hpc, hpm]
        · by_cases hm : CpusetGroup.isEmpty cm = true <;>
            by_cases hd : current ∈ fs.dirs <;>
              simp [CpusetGroup.copyIfNeeded, CpusetGroup.getSubsystemSettings,
                readFileM, writeFileM, hcc, hcm, hpc, hpm, hne, hm, hd,
                lookupFile]
  · intro c hcm hne
    rcases hcc : lookupFile fs.files current "cpuset.cpus" with _ | cc
    · simp [CpusetGroup.copyIfNeeded, CpusetGroup.getSubsystemSettings,
        readFileM, hcc, hcm]
    · rcases hpc : lookupFile fs.files parent "cpuset.cpus" with _ | pc
      · simp [CpusetGroup.copyIfNeeded, CpusetGroup.getSubsystemSettings,
          readFileM, hcc, hcm, hpc]
      · rcases hpm : lookupFile fs.files parent "cpuset.mems" with _ | pm
        · simp [CpusetGroup.copyIfNeeded, CpusetGroup.getSubsystemSettings,
            readFileM, hcc, hcm, hpc, hpm]
        · by_cases hc : CpusetGroup.isEmpty cc = true <;>
            by_cases hd : current ∈ fs.dirs <;>
              simp [CpusetGroup.copyIfNeeded, CpusetGroup.getSubsystemSettings,
                readFileM, writeFileM, hcc, hcm, hpc, hpm, hne, hc, hd,
                lookupFile]
  · intro cc cm pc pm hcc hcm hpc hpm hdir
    by_cases hc : CpusetGroup.isEmpty cc = true <;>
      by_cases hm : CpusetGroup.isEmpty cm = true <;>
        simp [CpusetGroup.copyIfNeeded, CpusetGroup.getSubsystemSettings,
          readFileM, writeFileM, hcc, hcm, hpc, hpm, hdir, hc, hm, lookupFile]

/-- Witness for C5: on `fsCopy` the empty child masks are filled from the
parent, and a non-empty child cpus mask (second call, after the copy) is
left alone. -/
theorem c5_witness :
    (CpusetGroup.copyIfNeeded fsCopy ["sys", "parent", "child"]
        ["sys", "parent"]).1 = Except.ok () ∧
    lookupFile ((CpusetGroup.copyIfNeeded fsCopy ["sys", "parent", "child"]
        ["sys", "parent"]).2).files ["sys", "parent", "child"] "cpuset.cpus" =
      some "0-3" ∧
    lookupFile ((CpusetGroup.copyIfNeeded fsCopy ["sys", "parent"]
        ["sys"]).2).files ["sys", "parent"] "cpuset.cpus" = some "0-3" := by
  have h := (c5_copyIfNeeded_only_empty fsCopy ["sys", "parent", "child"]
    ["sys", "parent"]).2.2 "" "\n" "0-3" "0" (by decide) (by decide)
    (by decide) (by decide) (by decide)
  have h₂ := (c5_copyIfNeeded_only_empty fsCopy ["sys", "parent"] ["sys"]).1
    "0-3" (by decide) (by decide)
  refine ⟨?_, ?_, h₂⟩
  · rw [h]
  · rw [h]; decide

/-! ## Event-log lemmas for the hierarchy bootstrap -/

theorem LogExt.refl (fs : FS) : LogExt fs fs := ⟨[], by simp, rfl⟩

theorem LogExt.trans {a b c : FS} (h₁ : LogExt a b) (h₂ : LogExt b c) :
    LogExt a c := by
  obtain ⟨Δ₁, e₁, a₁⟩ := h₁
  obtain ⟨Δ₂, e₂, a₂⟩ := h₂
  exact ⟨Δ₁ ++ Δ₂, by rw [e₂, e₁, List.append_assoc],
    by simp [List.all_append, a₁, a₂]⟩

theorem logExt_readFileM (fs : FS) (p : FPath) (n : String) :
    LogExt fs (readFileM fs p n).2 := by
  rcases h : lookupFile fs.files p n with _ | c
  · simp only [readFileM, h]
    exact LogExt.refl fs
  · exact ⟨[Ev.readF p n], by simp [readFileM, h], by simp [bootstrapEv]⟩

theorem logExt_writeFileM (fs : FS) (p : FPath) (n c : String)
    (hn : bootstrapEv (Ev.writeF p n c) = true) :
    LogExt fs (writeFileM fs p n c).2 := by
  by_cases hd : p ∈ fs.dirs
  · exact ⟨[Ev.writeF p n c], by simp [writeFileM, hd], by simp [hn]⟩
  · simp only [writeFileM, hd, if_neg, ite_false]
    exact LogExt.refl fs

theorem logExt_mkdirOne (fs : FS) (q : FPath) : LogExt fs (mkdirOne fs q) :=
  ⟨[Ev.mkdir q], rfl, by simp [bootstrapEv]⟩

theorem logExt_mkdirAllF : ∀ (n : Nat) (fs : FS) (p : FPath),
    LogExt fs (mkdirAllF n fs p) := by
  intro n
  induction n with
  | zero =>
    intro fs p
    cases p with
    | nil =>
      by_cases h : ([] : FPath) ∈ fs.dirs
      · simp only [mkdirAllF, h, ite_true]
        exact LogExt.refl fs
      · simp only [mkdirAllF, h, ite_false]
        exact logExt_mkdirOne fs []
    | cons a l => exact LogExt.refl fs
  | succ k ih =>
    intro fs p
    cases p with
    | nil =>
      by_cases h : ([] : FPath) ∈ fs.dirs
      · simp only [mkdirAllF, h, ite_true]
        exact LogExt.refl fs
      · simp only [mkdirAllF, h, ite_false]
        exact logExt_mkdirOne fs []
    | cons a l =>
      by_cases h : (a :: l : FPath) ∈ fs.dirs
      · simp only [mkdirAllF, h, ite_true]
        exact LogExt.refl fs
      · simp only [mkdirAllF, h, ite_false]
        exact (ih fs (a :: l).dropLast).trans (logExt_mkdirOne _ _)

theorem logExt_mkdirAll (fs : FS) (p : FPath) : LogExt fs (mkdirAll fs p) :=
  logExt_mkdirAllF p.length fs p

theorem logExt_getSettings (fs : FS) (p : FPath) :
    LogExt fs (CpusetGroup.getSubsystemSettings fs p).2 := by
  unfold CpusetGroup.getSubsystemSettings
  rcases h1 : readFileM fs p "cpuset.cpus" with ⟨r1, fs₁⟩
  have l1 : LogExt fs fs₁ := by
    have := logExt_readFileM fs p "cpuset.cpus"
    rw [h1] at this
    exact this
  cases r1 with
  | error e => exact l1
  | ok c =>
    dsimp only
    rcases h2 : readFileM fs₁ p "cpuset.mems" with ⟨r2, fs₂⟩
    have l2 : LogExt fs fs₂ := by
      have := logExt_readFileM fs₁ p "cpuset.mems"
      rw [h2] at this
      exact l1.trans this
    cases r2 with
    | error e => exact l2
    | ok m => exact l2

theorem logExt_copyIfNeeded (fs : FS) (cur par : FPath) :
    LogExt fs (CpusetGroup.copyIfNeeded fs cur par).2 := by
  unfold CpusetGroup.copyIfNeeded
  rcases hg : CpusetGroup.getSubsystemSettings fs cur with ⟨r1, fs₁⟩
  have l1 : LogExt fs fs₁ := by
    have := logExt_getSettings fs cur
    rw [hg] at this
    exact this
  cases r1 with
  | error e => exact l1
  | ok v =>
    obtain ⟨cc, cm⟩ := v
    dsimp only
    rcases hg2 : CpusetGroup.getSubsystemSettings fs₁ par with ⟨r2, fs₂⟩
    have l2 : LogExt fs fs₂ := by
      have := logExt_getSettings fs₁ par
      rw [hg2] at this
      exact l1.trans this
    cases r2 with
    | error e => exact l2
    | ok v2 =>
      obtain ⟨pc, pm⟩ := v2
      dsimp only
      rcases hw : (if CpusetGroup.isEmpty cc
          then writeFileM fs₂ cur "cpuset.cpus" pc
          else (Except.ok (), fs₂)) with ⟨r3, fs₃⟩
      have l3 : LogExt fs fs₃ := by
        by_cases hc : CpusetGroup.isEmpty cc = true
        · rw [if_pos hc] at hw
          have := logExt_writeFileM fs₂ cur "cpuset.cpus" pc
            (by simp [bootstrapEv])
          rw [hw] at this
          exact l2.trans this
        · rw [if_neg hc] at hw
          simp only [Prod.mk.injEq] at hw
          rw [← hw.2]
          exact l2
      cases r3 with
      | error e => exact l3
      | ok u =>
        dsimp only
        by_cases hm : CpusetGroup.isEmpty cm = true
        · rw [if_pos hm]
          have := logExt_writeFileM fs₃ cur "cpuset.mems" pm
            (by simp [bootstrapEv])
          exact l3.trans this
        · rw [if_neg hm]
          exact l3

theorem logExt_ensureStep (fs : FS) (cur : FPath) :
    LogExt fs (CpusetGroup.ensureStep fs cur).2 :=
  (logExt_mkdirAll fs cur).trans (logExt_copyIfNeeded _ cur cur.dropLast)

theorem logExt_ensureParentF : ∀ (n : Nat) (fs : FS) (cur : FPath),
    LogExt fs ((CpusetGroup.ensureParentF n fs cur).2) := by
  intro n
  induction n with
  | zero => intro fs cur; exact LogExt.refl fs
  | succ k ih =>
    intro fs cur
    by_cases h : cur.dropLast ∈ fs.dirs
    · simp only [CpusetGroup.ensureParentF, h, ite_true]
      exact logExt_ensureStep fs cur
    · simp only [CpusetGroup.ensureParentF, h, ite_false]
      rcases hr : CpusetGroup.ensureParentF k fs cur.dropLast with ⟨r, fs₁⟩
      have l1 : LogExt fs fs₁ := by
        have := ih fs cur.dropLast
        rw [hr] at this
        exact this
      cases r with
      | error e => exact l1
      | ok u => exact l1.trans (logExt_ensureStep fs₁ cur)

theorem logExt_ensureParent (fs : FS) (cur : FPath) :
    LogExt fs ((CpusetGroup.ensureParent fs cur).2) :=
  logExt_ensureParentF (cur.length + 1) fs cur

/-- C6 — In `SetDir`, (i) the ancestor bootstrap appends only bootstrap
events, so no `cgroup.procs` write happens before `ensureParent` has
succeeded; (ii) when `ensureParent` fails the call stops there, writing
nothing further; (iii) when it succeeds the pid is written to `cgroup.procs`
and only then the requested mask to `cpuset.cpus` — the appended log shows
exactly that order; (iv) when the directory is missing after a successful
bootstrap the procs write fails and no mask write happens. -/
theorem c6_setDir_write_order (fs : FS) (dir : FPath) (value : String)
    (pid : Int) :
    (∀ e ∈ ((CpusetGroup.ensureParent fs dir).2).log,
        e ∈ fs.log ∨ bootstrapEv e = true) ∧
    (∀ err fse, CpusetGroup.ensureParent fs dir = (Except.error err, fse) →
        CpusetGroup.SetDir fs dir value pid = (Except.error err, fse)) ∧
    (∀ fse, CpusetGroup.ensureParent fs dir = (Except.ok (), fse) →
        dir ∈ fse.dirs →
        CpusetGroup.SetDir fs dir value pid =
          (Except.ok (),
            { dirs := fse.dirs
              files := (dir, "cpuset.cpus", value) ::
                (dir, "cgroup.procs", toString pid) :: fse.files
              log := fse.log ++
                [Ev.writeF dir "cgroup.procs" (toString pid),
                 Ev.writeF dir "cpuset.cpus" value] })) ∧
    (∀ fse, CpusetGroup.ensureParent fs dir = (Except.ok (), fse) →
        dir ∉ fse.dirs →
        CpusetGroup.SetDir fs dir value pid =
          (Except.error (GError.notFound "write"), fse)) := by
  refine ⟨?_, ?_, ?_, ?_⟩
  · intro e he
    obtain ⟨Δ, hΔ, hall⟩ := logExt_ensureParent fs dir
    rw [hΔ, List.mem_append] at he
    rcases he with h | h
    · exact Or.inl h
    · exact Or.inr (by rw [List.all_eq_true] at hall; exact hall e h)
  · intro err fse h
    simp [CpusetGroup.SetDir, h]
  · intro fse h hdir
    simp [CpusetGroup.SetDir, h, writeFileM, hdir, List.append_assoc]
  · intro fse h hdir
    simp [CpusetGroup.SetDir, h, writeFileM, hdir]

/-- Witness for C6: on the concrete hierarchy `fsCopy`, `SetDir` succeeds
(bootstrap, then procs, then mask). -/
theorem c6_witness :
    (CpusetGroup.SetDir fsCopy ["sys", "parent", "child"] "0-1" 7).1 =
      Except.ok () := by
  have h := (c6_setDir_write_order fsCopy ["sys", "parent", "child"]
    "0-1" 7).2.2.1
    ((CpusetGroup.ensureParent fsCopy ["sys", "parent", "child"]).2)
    (by decide) (by decide)
  rw [h]

/-! ## Stats-loop lemmas -/

/-- One loop step of `GetAllStats` when the controller's `Apply` fails. -/
theorem runStats_cons_apply_error (n : String) (s : subsystem)
    (rest : List (String × subsystem)) (d : data) (st : Stats) (fs fs₁ : FS)
    (e : GError) (h : s.apply d fs = (Except.error e, fs₁)) :
    runStats ((n, s) :: rest) d st fs =
      ([StatStep.applied n], (st, fs₁, some e)) := by
  simp [runStats, h]

/-- One loop step of `GetAllStats` when resolution fails with a not-found
error: the controller is skipped and the loop continues. -/
theorem runStats_cons_skip (n : String) (s : subsystem)
    (rest : List (String × subsystem)) (d : data) (st : Stats) (fs fs₁ : FS)
    (e : GError) (h : s.apply d fs = (Except.ok (), fs₁))
    (hres : d.pathsOf n = Except.error e) (hnf : IsNotFound e = true) :
    runStats ((n, s) :: rest) d st fs =
      (StatStep.applied n ::
          (runStats rest d st { fs₁ with log := fs₁.log ++ [Ev.resolve n] }).1,
        (runStats rest d st { fs₁ with log := fs₁.log ++ [Ev.resolve n] }).2) := by
  simp [runStats, h, resolveM, hres, hnf]

/-- One loop step of `GetAllStats` when resolution fails with any other
error: the whole call fails with that error. -/
theorem runStats_cons_res_fatal (n : String) (s : subsystem)
    (rest : List (String × subsystem)) (d : data) (st : Stats) (fs fs₁ : FS)
    (e : GError) (h : s.apply d fs = (Except.ok (), fs₁))
    (hres : d.pathsOf n = Except.error e) (hnf : IsNotFound e = false) :
    runStats ((n, s) :: rest) d st fs =
      ([StatStep.applied n],
        (st, { fs₁ with log := fs₁.log ++ [Ev.resolve n] }, some e)) := by
  simp [runStats, h, resolveM, hres, hnf]

/-- One loop step of `GetAllStats` when the stats read fails: the whole call
fails with that error. -/
theorem runStats_cons_stats_error (n : String) (s : subsystem)
    (rest : List (String × subsystem)) (d : data) (st : Stats) (fs fs₁ : FS)
    (p : FPath) (e : GError) (fs₃ : FS)
    (h : s.apply d fs = (Except.ok (), fs₁))
    (hres : d.pathsOf n = Except.ok p)
    (hgs : s.getStats p st { fs₁ with log := fs₁.log ++ [Ev.resolve n] } =
      (Except.error e, fs₃)) :
    runStats ((n, s) :: rest) d st fs =
      ([StatStep.applied n, StatStep.resolved n], (st, fs₃, some e)) := by
  simp [runStats, h, resolveM, hres, hgs]

/-- One loop step of `GetAllStats` when everything succeeds. -/
theorem runStats_cons_ok (n : String) (s : subsystem)
    (rest : List (String × subsystem)) (d : data) (st : Stats) (fs fs₁ : FS)
    (p : FPath) (st₁ : Stats) (fs₃ : FS)
    (h : s.apply d fs = (Except.ok (), fs₁))
    (hres : d.pathsOf n = Except.ok p)
    (hgs : s.getStats p st { fs₁ with log := fs₁.log ++ [Ev.resolve n] } =
      (Except.ok st₁, fs₃)) :
    runStats ((n, s) :: rest) d st fs =
      (StatStep.applied n :: StatStep.resolved n :: StatStep.gotStats n ::
          (runStats rest d st₁ fs₃).1,
        (runStats rest d st₁ fs₃).2) := by
  simp [runStats, h, resolveM, hres, hgs]

/-- Splitting the stats loop at a successful prefix. -/
theorem runStats_append (pre rest : List (String × subsystem)) (d : data)
    (st : Stats) (fs : FS) (tr : List StatStep) (st₁ : Stats) (fs₁ : FS)
    (h : runStats pre d st fs = (tr, (st₁, fs₁, none))) :
    runStats (pre ++ rest) d st fs =
      (tr ++ (runStats rest d st₁ fs₁).1, (runStats rest d st₁ fs₁).2) := by
  induction pre generalizing st fs tr with
  | nil =>
    simp only [runStats] at h
    cases h
    simp
  | cons hd tl ih =>
    obtain ⟨n, s⟩ := hd
    rcases ha : s.apply d fs with ⟨r, fsa⟩
    cases r with
    | error e =>
      rw [runStats_cons_apply_error n s tl d st fs fsa e ha] at h
      simp at h
    | ok u =>
      obtain rfl : u = () := rfl
      rcases hp : d.pathsOf n with e | p
      · by_cases hnf : IsNotFound e = true
        · rw [runStats_cons_skip n s tl d st fs fsa e ha hp hnf] at h
          rw [List.cons_append,
            runStats_cons_skip n s (tl ++ rest) d st fs fsa e ha hp hnf]
          rcases ht : runStats tl d st
              { fsa with log := fsa.log ++ [Ev.resolve n] } with ⟨tr', r'⟩
          rw [ht] at h
          simp only [Prod.mk.injEq] at h
          obtain ⟨h₁, h₂⟩ := h
          subst h₁
          rw [ih st { fsa with log := fsa.log ++ [Ev.resolve n] } tr'
            (ht.trans (by rw [h₂]))]
          simp
        · rw [runStats_cons_res_fatal n s tl d st fs fsa e ha hp
            (by simpa using hnf)] at h
          simp at h
      · rcases hg : s.getStats p st
            { fsa with log := fsa.log ++ [Ev.resolve n] } with ⟨rg, fsg⟩
        cases rg with
        | error e =>
          rw [runStats_cons_stats_error n s tl d st fs fsa p e fsg ha hp hg]
            at h
          simp at h
        | ok stg =>
          rw [runStats_cons_ok n s tl d st fs fsa p stg fsg ha hp hg] at h
          rw [List.cons_append,
            runStats_cons_ok n s (tl ++ rest) d st fs fsa p stg fsg ha hp hg]
          rcases ht : runStats tl d stg fsg with ⟨tr', r'⟩
          rw [ht] at h
          simp only [Prod.mk.injEq] at h
          obtain ⟨h₁, h₂⟩ := h
          subst h₁
          rw [ih stg fsg tr' (ht.trans (by rw [h₂]))]
          simp

/-- C7 — In `GetAllStats`, after a successful prefix and a successful
`Apply`, a not-found resolution failure skips the controller and the loop
continues with the remaining controllers (so the call can still succeed);
any other resolution failure, and any stats-reading failure, aborts the
whole call with that error. -/
theorem c7_getAllStats_skip_vs_fatal (pre post : List (String × subsystem))
    (n : String) (s : subsystem) (d : data) (fs : FS) (tr : List StatStep)
    (st₁ : Stats) (fs₁ fs₂ : FS)
    (hperm : (pre ++ (n, s) :: post).Perm subsystems)
    (hpre : runStats pre d [] fs = (tr, (st₁, fs₁, none)))
    (happly : s.apply d fs₁ = (Except.ok (), fs₂)) :
    (∀ e, d.pathsOf n = Except.error e → IsNotFound e = true →
      GetAllStats (pre ++ (n, s) :: post) d fs =
        (tr ++ StatStep.applied n ::
            (runStats post d st₁
              { fs₂ with log := fs₂.log ++ [Ev.resolve n] }).1,
          (runStats post d st₁
            { fs₂ with log := fs₂.log ++ [Ev.resolve n] }).2)) ∧
    (∀ e, d.pathsOf n = Except.error e → IsNotFound e = false →
      GetAllStats (pre ++ (n, s) :: post) d fs =
        (tr ++ [StatStep.applied n],
          (st₁, { fs₂ with log := fs₂.log ++ [Ev.resolve n] }, some e))) ∧
    (∀ p e' fs₃, d.pathsOf n = Except.ok p →
      s.getStats p st₁ { fs₂ with log := fs₂.log ++ [Ev.resolve n] } =
        (Except.error e', fs₃) →
      GetAllStats (pre ++ (n, s) :: post) d fs =
        (tr ++ [StatStep.applied n, StatStep.resolved n],
          (st₁, fs₃, some e'))) := by
  refine ⟨?_, ?_, ?_⟩
  · intro e hres hnf
    unfold GetAllStats
    rw [runStats_append pre ((n, s) :: post) d [] fs tr st₁ fs₁ hpre,
      runStats_cons_skip n s post d st₁ fs₁ fs₂ e happly hres hnf]
  · intro e hres hnf
    unfold GetAllStats
    rw [runStats_append pre ((n, s) :: post) d [] fs tr st₁ fs₁ hpre,
      runStats_cons_res_fatal n s post d st₁ fs₁ fs₂ e happly hres hnf]
  · intro p e' fs₃ hres hgs
    unfold GetAllStats
    rw [runStats_append pre ((n, s) :: post) d [] fs tr st₁ fs₁ hpre,
      runStats_cons_stats_error n s post d st₁ fs₁ fs₂ p e' fs₃ happly hres hgs]

/-- Witness for C7: with the cpu directory unresolvable (not-found), the
stats call skips cpu and still succeeds. -/
theorem c7_witness :
    (GetAllStats [("memory", memorySubsystem), ("cpu", cpuSubsystem),
        ("cpuset", cpusetSubsystem)] dStats7 fsStats).2.2.2 = none := by
  have h := (c7_getAllStats_skip_vs_fatal
    [("memory", memorySubsystem)] [("cpuset", cpusetSubsystem)]
    "cpu" cpuSubsystem dStats7 fsStats
    [StatStep.applied "memory", StatStep.resolved "memory",
      StatStep.gotStats "memory"]
    [("memory.usage_in_bytes", "100")]
    { fsStats with
        log := [Ev.resolve "memory",
                Ev.readF ["memory"] "memory.usage_in_bytes"] }
    { fsStats with
        log := [Ev.resolve "memory",
                Ev.readF ["memory"] "memory.usage_in_bytes"] }
    (by simp only [subsystems, supportedSubsystems, List.cons_append,
      List.nil_append]; exact List.Perm.refl _)
    (by decide) (by decide)).1 (GError.notFound "cpu") (by decide) (by decide)
  rw [List.cons_append, List.nil_append] at h
  rw [h]
  decide

/-- The stats loop's trace decomposes into per-controller blocks, each
beginning with that controller's `Apply`. -/
theorem runStats_blocks (ctrls : List (String × subsystem)) (d : data)
    (st : Stats) (fs : FS) :
    ∃ bs : List (List StatStep),
      (runStats ctrls d st fs).1 = bs.flatten ∧ ∀ b ∈ bs, statBlock b := by
  induction ctrls generalizing st fs with
  | nil => exact ⟨[], by simp [runStats], by simp⟩
  | cons hd tl ih =>
    obtain ⟨n, s⟩ := hd
    rcases ha : s.apply d fs with ⟨r, fsa⟩
    cases r with
    | error e =>
      refine ⟨[[StatStep.applied n]], ?_, ?_⟩
      · rw [runStats_cons_apply_error n s tl d st fs fsa e ha]; simp
      · intro b hb
        simp at hb
        exact hb ▸ ⟨n, Or.inl rfl⟩
    | ok u =>
      obtain rfl : u = () := rfl
      rcases hp : d.pathsOf n with e | p
      · by_cases hnf : IsNotFound e = true
        · obtain ⟨bs', hflat, hblocks⟩ :=
            ih st { fsa with log := fsa.log ++ [Ev.resolve n] }
          refine ⟨[StatStep.applied n] :: bs', ?_, ?_⟩
          · rw [runStats_cons_skip n s tl d st fs fsa e ha hp hnf]
            simp [hflat]
          · intro b hb
            rcases List.mem_cons.mp hb with rfl | hb'
            · exact ⟨n, Or.inl rfl⟩
            · exact hblocks b hb'
        · refine ⟨[[StatStep.applied n]], ?_, ?_⟩
          · rw [runStats_cons_res_fatal n s tl d st fs fsa e ha hp
              (by simpa using hnf)]
            simp
          · intro b hb
            simp at hb
            exact hb ▸ ⟨n, Or.inl rfl⟩
      · rcases hg : s.getStats p st
            { fsa with log := fsa.log ++ [Ev.resolve n] } with ⟨rg, fsg⟩
        cases rg with
        | error e =>
          refine ⟨[[StatStep.applied n, StatStep.resolved n]], ?_, ?_⟩
          · rw [runStats_cons_stats_error n s tl d st fs fsa p e fsg ha hp hg]
            simp
          · intro b hb
            simp at hb
            exact hb ▸ ⟨n, Or.inr (Or.inl rfl)⟩
        | ok stg =>
          obtain ⟨bs', hflat, hblocks⟩ := ih stg fsg
          refine ⟨[StatStep.applied n, StatStep.resolved n,
            StatStep.gotStats n] :: bs', ?_, ?_⟩
          · rw [runStats_cons_ok n s tl d st fs fsa p stg fsg ha hp hg]
            simp [hflat]
          · intro b hb
            rcases List.mem_cons.mp hb with rfl | hb'
            · exact ⟨n, Or.inr (Or.inr rfl)⟩
            · exact hblocks b hb'

/-- When the stats loop succeeds, every registered controller's `Apply` ran,
in iteration order. -/
theorem runStats_applied_all (ctrls : List (String × subsystem)) (d : data)
    (st : Stats) (fs : FS)
    (hok : (runStats ctrls d st fs).2.2.2 = none) :
    appliedNames (runStats ctrls d st fs).1 = ctrls.map Prod.fst := by
  induction ctrls generalizing st fs with
  | nil => simp [runStats, appliedNames]
  | cons hd tl ih =>
    obtain ⟨n, s⟩ := hd
    rcases ha : s.apply d fs with ⟨r, fsa⟩
    cases r with
    | error e =>
      rw [runStats_cons_apply_error n s tl d st fs fsa e ha] at hok
      simp at hok
    | ok u =>
      obtain rfl : u = () := rfl
      rcases hp : d.pathsOf n with e | p
      · by_cases hnf : IsNotFound e = true
        · rw [runStats_cons_skip n s tl d st fs fsa e ha hp hnf] at hok ⊢
          simp only [appliedNames, List.filterMap_cons] at ih ⊢
          simp at hok
          rw [List.map_cons]
          simpa [appliedNames] using
            ih st { fsa with log := fsa.log ++ [Ev.resolve n] } hok
        · rw [runStats_cons_res_fatal n s tl d st fs fsa e ha hp
            (by simpa using hnf)] at hok
          simp at hok
      · rcases hg : s.getStats p st
            { fsa with log := fsa.log ++ [Ev.resolve n] } with ⟨rg, fsg⟩
        cases rg with
        | error e =>
          rw [runStats_cons_stats_error n s tl d st fs fsa p e fsg ha hp hg]
            at hok
          simp at hok
        | ok stg =>
          rw [runStats_cons_ok n s tl d st fs fsa p stg fsg ha hp hg] at hok ⊢
          simp at hok
          rw [List.map_cons]
          simpa [appliedNames] using ih stg fsg hok

/-- C8 — `GetAllStats` re-applies the configuration: (i) its trace splits
into per-controller blocks, each starting with that controller's `Apply` and
resolving / reading stats only afterwards; (ii) on success every registered
controller's `Apply` ran, in iteration order; (iii) if a controller's
`Apply` fails after a successful prefix, the whole stats call fails with
that error. -/
theorem c8_getAllStats_applies (d : data) (fs : FS) :
    (∀ ord : List (String × subsystem), ∃ bs : List (List StatStep),
      (GetAllStats ord d fs).1 = bs.flatten ∧ ∀ b ∈ bs, statBlock b) ∧
    (∀ ord : List (String × subsystem),
      (GetAllStats ord d fs).2.2.2 = none →
      appliedNames (GetAllStats ord d fs).1 = ord.map Prod.fst) ∧
    (∀ pre post (n : String) (s : subsystem) tr (st₁ : Stats) (fs₁ : FS)
        (e : GError) (fs₂ : FS),
      runStats pre d [] fs = (tr, (st₁, fs₁, none)) →
      s.apply d fs₁ = (Except.error e, fs₂) →
      GetAllStats (pre ++ (n, s) :: post) d fs =
        (tr ++ [StatStep.applied n], (st₁, fs₂, some e))) := by
  refine ⟨fun ord => runStats_blocks ord d [] fs,
    fun ord hok => runStats_applied_all ord d [] fs hok,
    ?_⟩
  intro pre post n s tr st₁ fs₁ e fs₂ hpre hfail
  unfold GetAllStats
  rw [runStats_append pre ((n, s) :: post) d [] fs tr st₁ fs₁ hpre,
    runStats_cons_apply_error n s post d st₁ fs₁ fs₂ e hfail]

/-- Witness for C8: on a fully successful stats run, the applied-controller
names are exactly the registry names in iteration order. -/
theorem c8_witness :
    appliedNames (GetAllStats supportedSubsystems dStats8 fsStats).1 =
      ["memory", "cpu", "cpuset"] := by
  have h := (c8_getAllStats_applies dStats8 fsStats).2.1 supportedSubsystems
    (by decide)
  rw [h]
  simp [supportedSubsystems]

/-! ## Direct-access helper lemmas -/

theorem findGroupAux_not_mem (l : List (String × List String)) (sub : String)
    (h : ∀ g ∈ l, sub ∉ g.2) :
    Access.findGroupAux l sub = Except.error GError.canNotAccess := by
  induction l with
  | nil => rfl
  | cons g rest ih =>
    simp only [Access.findGroupAux, h g (by simp), ite_false]
    exact ih (fun g' hg' => h g' (by simp [hg']))

theorem findGroup_not_accessible (sub : String)
    (h : ¬ Access.accessible sub) :
    Access.findGroup sub = Except.error GError.canNotAccess := by
  unfold Access.findGroup
  exact findGroupAux_not_mem _ sub (fun g hg hmem => h ⟨g, hg, hmem⟩)

/-- C9 — When the hierarchy root resolves and exists, a request for a file
name outside the allow-list makes both `Set` and `Get` fail with
`ErrCanNotAccess` and leave the filesystem (including the event log, hence
with no read or write) untouched; and both helpers are gated by the same
`getPath` resolver — whenever it fails, both return its error unchanged with
the state untouched. -/
theorem c9_direct_access_allowlist (env : Access.CgroupsEnv)
    (id driver sub value : String) (fs : FS) (mp : FPath)
    (hmp : env.findCgroupMountpoint "cpu" = Except.ok mp)
    (hroot : mp.dropLast ∈ fs.dirs)
    (hacc : ¬ Access.accessible sub) :
    Access.Set env id driver sub value fs =
      (Except.error GError.canNotAccess, fs) ∧
    Access.Get env id driver sub fs =
      (Except.error GError.canNotAccess, fs) ∧
    (∀ e, Access.getPath env id driver sub fs = Except.error e →
      Access.Set env id driver sub value fs = (Except.error e, fs) ∧
      Access.Get env id driver sub fs = (Except.error e, fs)) := by
  have hgp : Access.getPath env id driver sub fs =
      Except.error GError.canNotAccess := by
    unfold Access.getPath
    rw [hmp]
    simp only [hroot, if_true, ite_true, findGroup_not_accessible sub hacc]
  refine ⟨?_, ?_, ?_⟩
  · simp [Access.Set, hgp]
  · simp [Access.Get, hgp]
  · intro e he
    constructor
    · simp [Access.Set, he]
    · simp [Access.Get, he]

/-- Witness for C9: the file name `"bogus"` is outside the allow-list, so
both helpers fail with `ErrCanNotAccess` and touch nothing. -/
theorem c9_witness :
    Access.Set envW "id0" "native" "bogus" "1" fsW9 =
      (Except.error GError.canNotAccess, fsW9) ∧
    Access.Get envW "id0" "native" "bogus" fsW9 =
      (Except.error GError.canNotAccess, fsW9) := by
  have h := c9_direct_access_allowlist envW "id0" "native" "bogus" "1" fsW9
    ["sys", "cpu"] rfl (by decide) (by decide)
  exact ⟨h.1, h.2.1⟩

/-! ## Hierarchy-bootstrap invariant (C4) -/

theorem prefixLengthLt (p q : FPath) (h : p <+: q) (hne : p ≠ q) :
    p.length < q.length :=
  Nat.lt_of_le_of_ne h.length_le (fun he => hne (h.eq_of_length he))

theorem prefixOfDropLast (p q : FPath) (h : p <+: q)
    (hlt : p.length < q.length) : p <+: q.dropLast := by
  obtain ⟨t, rfl⟩ := h
  cases t with
  | nil => simp at hlt
  | cons a l =>
    rw [List.dropLast_append_of_ne_nil p (by simp)]
    exact ⟨(a :: l).dropLast, rfl⟩

theorem memOfClosedAux : ∀ (k : Nat) (dirs : List FPath),
    (∀ p ∈ dirs, p.dropLast ∈ dirs) →
    ∀ q : FPath, q.length ≤ k → q ∈ dirs → ∀ p, p <+: q → p ∈ dirs := by
  intro k
  induction k with
  | zero =>
    intro dirs hclosed q hlen hq p hp
    have : q = [] := List.eq_nil_of_length_eq_zero (Nat.le_zero.mp hlen)
    subst this
    rw [List.prefix_nil.mp hp]
    exact hq
  | succ k ih =>
    intro dirs hclosed q hlen hq p hp
    by_cases hpq : p = q
    · exact hpq ▸ hq
    · have hlt := prefixLengthLt p q hp hpq
      have hp' := prefixOfDropLast p q hp hlt
      have hq' := hclosed q hq
      have hlen' : q.dropLast.length ≤ k := by
        rw [List.length_dropLast]
        omega
      exact ih dirs hclosed q.dropLast hlen' hq' p hp'

/-- In a parent-closed directory set, every prefix of a member is a member. -/
theorem memOfClosed (dirs : List FPath)
    (hclosed : ∀ p ∈ dirs, p.dropLast ∈ dirs) (q : FPath) (hq : q ∈ dirs)
    (p : FPath) (hp : p <+: q) : p ∈ dirs :=
  memOfClosedAux q.length dirs hclosed q (Nat.le_refl _) hq p hp

theorem mkdirAllF_of_mem (fuel : Nat) (fs : FS) (p : FPath)
    (h : p ∈ fs.dirs) : mkdirAllF fuel fs p = fs := by
  cases fuel <;> cases p <;> simp [mkdirAllF, h]

/-- `MkdirAll` below an existing parent creates exactly the one missing
directory. -/
theorem mkdirAll_new (fs : FS) (a : String) (l : List String)
    (hpar : (a :: l : FPath).dropLast ∈ fs.dirs)
    (hnot : (a :: l : FPath) ∉ fs.dirs) :
    mkdirAll fs (a :: l) = mkdirOne fs (a :: l) := by
  show mkdirAllF (l.length + 1) fs (a :: l) = mkdirOne fs (a :: l)
  simp only [mkdirAllF, hnot, ite_false]
  rw [mkdirAllF_of_mem l.length fs _ hpar]

theorem hasMasks_elim (F : List (FPath × String × String)) (p : FPath)
    (h : hasMasks F p = true) :
    ∃ c m, lookupFile F p "cpuset.cpus" = some c ∧
      CpusetGroup.isEmpty c = false ∧
      lookupFile F p "cpuset.mems" = some m ∧
      CpusetGroup.isEmpty m = false := by
  unfold hasMasks at h
  rcases h1 : lookupFile F p "cpuset.cpus" with _ | c <;> rw [h1] at h
  · simp at h
  · rcases h2 : lookupFile F p "cpuset.mems" with _ | m <;> rw [h2] at h
    · simp at h
    · simp only [Bool.and_eq_true, Bool.not_eq_true'] at h
      exact ⟨c, m, rfl, h.1, rfl, h.2⟩

/-- Full success characterisation of `copyIfNeeded` (shared helper). -/
theorem copyIfNeeded_ok (fs : FS) (cur par : FPath) (cc cm pc pm : String)
    (hcc : lookupFile fs.files cur "cpuset.cpus" = some cc)
    (hcm : lookupFile fs.files cur "cpuset.mems" = some cm)
    (hpc : lookupFile fs.files par "cpuset.cpus" = some pc)
    (hpm : lookupFile fs.files par "cpuset.mems" = some pm)
    (hdir : cur ∈ fs.dirs) :
    CpusetGroup.copyIfNeeded fs cur par =
      (Except.ok (),
        { dirs := fs.dirs
          files :=
            (if CpusetGroup.isEmpty cm
             then [(cur, "cpuset.mems", pm)] else []) ++
            (if CpusetGroup.isEmpty cc
             then [(cur, "cpuset.cpus", pc)] else []) ++ fs.files
          log := fs.log ++
            [Ev.readF cur "cpuset.cpus", Ev.readF cur "cpuset.mems",
             Ev.readF par "cpuset.cpus", Ev.readF par "cpuset.mems"] ++
            (if CpusetGroup.isEmpty cc
             then [Ev.writeF cur "cpuset.cpus" pc] else []) ++
            (if CpusetGroup.isEmpty cm
             then [Ev.writeF cur "cpuset.mems" pm] else []) }) := by
  by_cases hc : CpusetGroup.isEmpty cc = true <;>
    by_cases hm : CpusetGroup.isEmpty cm = true <;>
      simp [CpusetGroup.copyIfNeeded, CpusetGroup.getSubsystemSettings,
        readFileM, writeFileM, hcc, hcm, hpc, hpm, hdir, hc, hm, lookupFile]

/-- One level of the bootstrap: with the parent present and the invariant
holding, `MkdirAll` + `copyIfNeeded` succeeds, preserves the invariant, can
only create `current` itself, and fills `current`'s masks. -/
theorem ensureStep_spec (fs : FS) (root current : FPath)
    (hg : GoodFS fs root) (hpre : root <+: current) (hne : current ≠ root)
    (hpar : current.dropLast ∈ fs.dirs) :
    ∃ fs', CpusetGroup.ensureStep fs current = (Except.ok (), fs') ∧
      GoodFS fs' root ∧
      (∀ p ∈ fs.dirs, p ∈ fs'.dirs) ∧
      current ∈ fs'.dirs ∧
      ∃ Δ, fs'.log = fs.log ++ Δ ∧
        (chainMkdirs Δ = [] ∨ chainMkdirs Δ = [current]) := by
  obtain ⟨hg1, hg2, hg3, hg4⟩ := hg
  have hrootlt : root.length < current.length :=
    prefixLengthLt root current hpre (fun h => hne h.symm)
  have hrootpar : root <+: current.dropLast :=
    prefixOfDropLast root current hpre hrootlt
  have hparmask : hasMasks fs.files current.dropLast = true :=
    hg3 _ hpar hrootpar
  obtain ⟨pc, pm, hpc, hpcne, hpm, hpmne⟩ := hasMasks_elim _ _ hparmask
  cases current with
  | nil => simp at hrootlt
  | cons a l =>
  by_cases hcur : (a :: l : FPath) ∈ fs.dirs
  · -- the directory already exists: MkdirAll is a no-op, masks are full
    have hmk : mkdirAll fs (a :: l) = fs := mkdirAllF_of_mem _ fs _ hcur
    have hcurmask := hg3 _ hcur hpre
    obtain ⟨cc, cm, hcc, hccne, hcm, hcmne⟩ := hasMasks_elim _ _ hcurmask
    have hcopy := copyIfNeeded_ok fs (a :: l) (a :: l).dropLast cc cm pc pm
      hcc hcm hpc hpm hcur
    simp only [hccne, hcmne, Bool.false_eq_true, if_false, List.nil_append,
      List.append_nil] at hcopy
    refine ⟨{ fs with log := fs.log ++
        [Ev.readF (a :: l) "cpuset.cpus", Ev.readF (a :: l) "cpuset.mems",
         Ev.readF (a :: l).dropLast "cpuset.cpus",
         Ev.readF (a :: l).dropLast "cpuset.mems"] }, ?_, ?_, ?_, ?_, ?_⟩
    · show CpusetGroup.copyIfNeeded (mkdirAll fs (a :: l)) (a :: l)
        (a :: l).dropLast = _
      rw [hmk, hcopy]
    · exact ⟨hg1, hg2, hg3, hg4⟩
    · intro p hp
      exact hp
    · exact hcur
    · exact ⟨_, rfl, Or.inl (by simp [chainMkdirs])⟩
  · -- the directory is created and inherits both masks from the parent
    have hmk : mkdirAll fs (a :: l) = mkdirOne fs (a :: l) :=
      mkdirAll_new fs a l hpar hcur
    have hcc2 : lookupFile (mkdirOne fs (a :: l)).files (a :: l)
        "cpuset.cpus" = some "" := by
      simp [mkdirOne, lookupFile]
    have hcm2 : lookupFile (mkdirOne fs (a :: l)).files (a :: l)
        "cpuset.mems" = some "" := by
      simp [mkdirOne, lookupFile]
    have hparne : (a :: l : FPath).dropLast ≠ (a :: l : FPath) := by
      intro h
      have := congrArg List.length h
      simp [List.length_dropLast] at this
    have hpc2 : lookupFile (mkdirOne fs (a :: l)).files (a :: l).dropLast
        "cpuset.cpus" = some pc := by
      simp only [mkdirOne]
      rw [lookupFile_cons_ne _ _ _ _ _ _ (fun h => hparne h.1.symm),
        lookupFile_cons_ne _ _ _ _ _ _ (fun h => hparne h.1.symm)]
      exact hpc
    have hpm2 : lookupFile (mkdirOne fs (a :: l)).files (a :: l).dropLast
        "cpuset.mems" = some pm := by
      simp only [mkdirOne]
      rw [lookupFile_cons_ne _ _ _ _ _ _ (fun h => hparne h.1.symm),
        lookupFile_cons_ne _ _ _ _ _ _ (fun h => hparne h.1.symm)]
      exact hpm
    have hdir2 : (a :: l : FPath) ∈ (mkdirOne fs (a :: l)).dirs := by
      simp [mkdirOne]
    have hcopy := copyIfNeeded_ok (mkdirOne fs (a :: l)) (a :: l)
      (a :: l).dropLast "" "" pc pm hcc2 hcm2 hpc2 hpm2 hdir2
    have hemp : CpusetGroup.isEmpty "" = true := by decide
    simp only [hemp, if_true, mkdirOne, List.append_assoc,
      List.cons_append, List.nil_append, List.singleton_append] at hcopy
    refine ⟨{ dirs := fs.dirs ++ [a :: l]
              files := ((a : String) :: l, "cpuset.mems", pm) ::
                ((a : String) :: l, "cpuset.cpus", pc) ::
                ((a : String) :: l, "cpuset.cpus", "") ::
                ((a : String) :: l, "cpuset.mems", "") :: fs.files
              log := fs.log ++
                [Ev.mkdir (a :: l),
                 Ev.readF (a :: l) "cpuset.cpus",
                 Ev.readF (a :: l) "cpuset.mems",
                 Ev.readF (a :: l).dropLast "cpuset.cpus",
                 Ev.readF (a :: l).dropLast "cpuset.mems",
                 Ev.writeF (a :: l) "cpuset.cpus" pc,
                 Ev.writeF (a :: l) "cpuset.mems" pm] }, ?_, ?_, ?_, ?_, ?_⟩
    · show CpusetGroup.copyIfNeeded (mkdirAll fs (a :: l)) (a :: l)
        (a :: l).dropLast = _
      rw [hmk]
      simp only [mkdirOne]
      exact hcopy
    · -- invariant for the extended state
      have hlk : ∀ p : FPath, p ≠ (a :: l) → ∀ nm,
          lookupFile (((a : String) :: l, "cpuset.mems", pm) ::
            ((a : String) :: l, "cpuset.cpus", pc) ::
            ((a : String) :: l, "cpuset.cpus", "") ::
            ((a : String) :: l, "cpuset.mems", "") :: fs.files) p nm =
          lookupFile fs.files p nm := by
        intro p hp nm
        rw [lookupFile_cons_ne _ _ _ _ _ _ (fun h => hp h.1.symm),
          lookupFile_cons_ne _ _ _ _ _ _ (fun h => hp h.1.symm),
          lookupFile_cons_ne _ _ _ _ _ _ (fun h => hp h.1.symm),
          lookupFile_cons_ne _ _ _ _ _ _ (fun h => hp h.1.symm)]
      refine ⟨?_, ?_, ?_, ?_⟩
      · intro p hp
        exact List.mem_append_left _ (hg1 p hp)
      · intro p hp
        rcases List.mem_append.mp hp with h | h
        · exact List.mem_append_left _ (hg2 p h)
        · rw [List.mem_singleton.mp h]
          exact List.mem_append_left _ hpar
      · intro p hp hpre'
        rcases List.mem_append.mp hp with h | h
        · have hpne : p ≠ (a :: l) := fun he => hcur (he ▸ h)
          unfold hasMasks
          rw [hlk p hpne "cpuset.cpus", hlk p hpne "cpuset.mems"]
          exact hg3 p h hpre'
        · rw [List.mem_singleton.mp h]
          unfold hasMasks
          rw [lookupFile_cons_ne _ _ _ _ _ _ (fun h => by
            have := h.2
            simp at this)]
          rw [lookupFile_cons_self]
          rw [lookupFile_cons_self]
          simp [hpcne, hpmne]
      · intro p hp
        rcases List.mem_append.mp hp with h | h
        · exact hg4 p h
        · exact Or.inr (List.mem_singleton.mp h ▸ hpre)
    · intro p hp
      exact List.mem_append_left _ hp
    · simp
    · exact ⟨_, rfl, Or.inr (by simp [chainMkdirs])⟩

theorem chainMkdirs_append (d₁ d₂ : List Ev) :
    chainMkdirs (d₁ ++ d₂) = chainMkdirs d₁ ++ chainMkdirs d₂ :=
  List.filterMap_append d₁ d₂ _

/-- The fuelled bootstrap walk: under the invariant, with enough fuel for
the missing suffix, `ensureParent` succeeds, preserves the invariant, only
grows the directory set, reaches `current`, and creates directories in
strictly root-to-leaf order. -/
theorem ensureParentF_spec : ∀ (fuel : Nat) (fs : FS) (root current : FPath),
    GoodFS fs root → root <+: current → current ≠ root →
    current.length - root.length ≤ fuel →
    ∃ fs', CpusetGroup.ensureParentF fuel fs current = (Except.ok (), fs') ∧
      GoodFS fs' root ∧ (∀ p ∈ fs.dirs, p ∈ fs'.dirs) ∧ current ∈ fs'.dirs ∧
      ∃ Δ, fs'.log = fs.log ++ Δ ∧
        List.Chain' (fun p q : FPath => p.length < q.length) (chainMkdirs Δ) ∧
        ∀ p ∈ chainMkdirs Δ, p.length ≤ current.length := by
  intro fuel
  induction fuel with
  | zero =>
    intro fs root current hg hpre hne hfuel
    have := prefixLengthLt root current hpre (fun h => hne h.symm)
    omega
  | succ n ih =>
    intro fs root current hg hpre hne hfuel
    have hrootlt := prefixLengthLt root current hpre (fun h => hne h.symm)
    by_cases hpar : current.dropLast ∈ fs.dirs
    · obtain ⟨fs', hstep, hg', hmono, hcur, Δ, hlog, hΔ⟩ :=
        ensureStep_spec fs root current hg hpre hne hpar
      refine ⟨fs', ?_, hg', hmono, hcur, Δ, hlog, ?_, ?_⟩
      · simp only [CpusetGroup.ensureParentF, hpar, if_true]
        exact hstep
      · rcases hΔ with h | h <;> rw [h]
        · exact List.chain'_nil
        · exact List.chain'_singleton current
      · rcases hΔ with h | h <;> rw [h]
        · simp
        · intro p hp
          rw [List.mem_singleton.mp hp]
    · have hrootne : current.dropLast ≠ root := by
        intro h
        apply hpar
        rw [h]
        exact hg.1 root ((List.mem_inits root root).mpr (List.prefix_refl root))
      have hrootpar : root <+: current.dropLast :=
        prefixOfDropLast root current hpre hrootlt
      have hlen : current.dropLast.length - root.length ≤ n := by
        rw [List.length_dropLast]
        omega
      obtain ⟨fs₁, hrun, hg₁, hmono₁, hparmem, Δ₁, hlog₁, hchain₁, hbound₁⟩ :=
        ih fs root current.dropLast hg hrootpar hrootne hlen
      obtain ⟨fs', hstep, hg', hmono₂, hcur, Δ₂, hlog₂, hΔ₂⟩ :=
        ensureStep_spec fs₁ root current hg₁ hpre hne hparmem
      have hdroplen : current.dropLast.length = current.length - 1 :=
        List.length_dropLast current
      refine ⟨fs', ?_, hg', fun p hp => hmono₂ p (hmono₁ p hp), hcur,
        Δ₁ ++ Δ₂, ?_, ?_, ?_⟩
      · simp only [CpusetGroup.ensureParentF, hpar, if_false]
        rw [hrun]
        exact hstep
      · rw [hlog₂, hlog₁, List.append_assoc]
      · rw [chainMkdirs_append]
        rcases hΔ₂ with h | h
        · rw [h, List.append_nil]
          exact hchain₁
        · rw [h]
          refine List.Chain'.append hchain₁ (List.chain'_singleton current) ?_
          intro x hx y hy
          have hx' := hbound₁ x (List.mem_of_mem_getLast? hx)
          have hy' : current = y := by simpa using hy
          rw [← hy']
          omega
      · intro p hp
        rw [chainMkdirs_append, List.mem_append] at hp
        rcases hp with h | h
        · have := hbound₁ p h
          omega
        · rcases hΔ₂ with h2 | h2 <;> rw [h2] at h
          · simp at h
          · rw [List.mem_singleton.mp h]

/-- C4 — Under the hierarchy invariant (in particular on a hierarchy where
only the root exists, with non-empty root masks), `ensureParent` succeeds —
directories that already exist are treated as success — creating the
missing directories in strictly root-to-leaf order (the logged `mkdir`
sequence has strictly increasing depth), and afterwards every directory on
the chain from the root to the target exists and has non-empty cpu and
memory-node masks. -/
theorem c4_ensureParent_bootstrap (fs : FS) (root t : FPath)
    (hg : GoodFS fs root) (hpre : root <+: t) (hne : t ≠ root) :
    ∃ fs', CpusetGroup.ensureParent fs t = (Except.ok (), fs') ∧
      (∀ p, root <+: p → p <+: t →
        p ∈ fs'.dirs ∧ hasMasks fs'.files p = true) ∧
      (∀ p ∈ fs.dirs, p ∈ fs'.dirs) ∧
      ∃ Δ, fs'.log = fs.log ++ Δ ∧
        List.Chain' (fun p q : FPath => p.length < q.length)
          (chainMkdirs Δ) := by
  obtain ⟨fs', hrun, hg', hmono, hcur, Δ, hlog, hchain, _⟩ :=
    ensureParentF_spec (t.length + 1) fs root t hg hpre hne (by omega)
  refine ⟨fs', hrun, ?_, hmono, Δ, hlog, hchain⟩
  intro p hrp hpt
  have hp : p ∈ fs'.dirs := memOfClosed fs'.dirs hg'.2.1 t hcur p hpt
  exact ⟨hp, hg'.2.2.1 p hp hrp⟩

/-- Witness for C4: bootstrapping a two-levels-deep target under `fsBoot`
succeeds. -/
theorem c4_witness :
    (CpusetGroup.ensureParent fsBoot ["sys", "cgr", "docker", "c1"]).1 =
      Except.ok () := by
  obtain ⟨fs', hrun, _⟩ := c4_ensureParent_bootstrap fsBoot ["sys", "cgr"]
    ["sys", "cgr", "docker", "c1"] (by decide) (by decide) (by decide)
  rw [hrun]
